import Mathlib

/-
Verification of the pretty-good OpenPGP signature-packet codec
(src/signature.rs and src/types.rs) against its specification.

Bytes are modelled as natural numbers below 256 in a List Nat.  The nom
parser combinators used by the source (nom 3: IResult, be_u8/u16/u32/u64,
take!, tag!, many0!, length_value!, alt!, do_parse!) are embedded as
functions from List Nat to a NomResult, mirroring the combinator
semantics of that nom version.  Machine integers are Nat with explicit
mod 2 ^ w where the source can wrap.
-/

namespace PrettyGood

/-- Big-endian interpretation of a byte list, as byteorder and nom do. -/
def beBytesToNat (l : List Nat) : Nat := l.foldl (fun acc b => acc * 256 + b) 0

/-- Big-endian encoding of n into exactly k bytes (low bytes of n). -/
def natToBytesBE (n k : Nat) : List Nat :=
  match k with
  | 0 => []
  | k + 1 => natToBytesBE (n / 256) k ++ [n % 256]

/-- The Needed marker of nom Incomplete results. -/
inductive Needed where
  | unknownNeeded : Needed
  | size (n : Nat) : Needed
deriving DecidableEq

/-- The nom ErrorKind values that can arise in this codec: tag mismatch,
all alt branches failing, the many0 non-consumption guard, the complete
conversion inside length_value, and Custom codes from parse_subpacket. -/
inductive ErrKind where
  | tagErr : ErrKind
  | altErr : ErrKind
  | many0Err : ErrKind
  | completeErr : ErrKind
  | custom (n : Nat) : ErrKind
deriving DecidableEq

/-- nom 3 IResult: Done(remaining, value), Error(kind), Incomplete(needed). -/
inductive NomResult (α : Type) where
  | done (remaining : List Nat) (value : α)
  | error (e : ErrKind)
  | incomplete (n : Needed)
deriving DecidableEq

/-- True exactly on Done results. -/
def NomResult.isDone {α : Type} : NomResult α → Bool
  | .done _ _ => true
  | _ => false

/-- The explicit result-propagation pattern of the source (each step
matches on Done / Error / Incomplete, forwarding the failing cases),
which is also what do_parse chains do. -/
def nbind {α β : Type} (r : NomResult α) (f : List Nat → α → NomResult β) : NomResult β :=
  match r with
  | .done i o => f i o
  | .error e => .error e
  | .incomplete n => .incomplete n

/-- nom be_u8: one byte, Incomplete on empty input. -/
def be_u8 (inp : List Nat) : NomResult Nat :=
  match inp with
  | [] => .incomplete (.size 1)
  | b :: rest => .done rest b

/-- nom fixed-width big-endian unsigned read of k bytes. -/
def beUint (k : Nat) (inp : List Nat) : NomResult Nat :=
  if k ≤ inp.length then .done (inp.drop k) (beBytesToNat (inp.take k))
  else .incomplete (.size k)

/-- nom be_u16. -/
def be_u16 (inp : List Nat) : NomResult Nat := beUint 2 inp

/-- nom be_u32. -/
def be_u32 (inp : List Nat) : NomResult Nat := beUint 4 inp

/-- nom be_u64. -/
def be_u64 (inp : List Nat) : NomResult Nat := beUint 8 inp

/-- nom take!(cnt): Incomplete when fewer than cnt bytes remain. -/
def takeN (cnt : Nat) (inp : List Nat) : NomResult (List Nat) :=
  if inp.length < cnt then .incomplete (.size cnt)
  else .done (inp.drop cnt) (inp.take cnt)

/-- nom tag! for a single-byte tag: Error on mismatch, Incomplete on empty. -/
def tagByte (b : Nat) (inp : List Nat) : NomResult Nat :=
  match inp with
  | [] => .incomplete (.size 1)
  | x :: rest => if x = b then .done rest b else .error .tagErr

/-- nom rest: consume and return everything left. -/
def restParse (inp : List Nat) : NomResult (List Nat) := .done [] inp

/-- subpacket_length from src/signature.rs: the OpenPGP three-tier
variable-length decoder.  The two-octet arithmetic is done in u16 in the
source; for first_octet in [192, 254] and a second byte the value is at
most 16319, so plain Nat arithmetic coincides with the u16 arithmetic. -/
def subpacket_length (inp : List Nat) : NomResult Nat :=
  nbind (be_u8 inp) fun remaining first_octet =>
    if first_octet < 192 then
      .done remaining first_octet
    else if first_octet < 255 then
      nbind (be_u8 remaining) fun remaining second_octet =>
        .done remaining ((first_octet - 192) * 256 + second_octet + 192)
    else
      be_u32 remaining

/-- The Subpacket enum of src/signature.rs.  Durations carry only whole
seconds in this codec, so they are modelled by their second count.
The variant written NotationData in the source is named ndata here. -/
inductive Subpacket where
  | signatureCreationTime (secs : Nat)
  | signatureExpirationTime (secs : Nat)
  | exportableCertification
  | trustSignature
  | regularExpression
  | revocable
  | keyExpirationTime (secs : Nat)
  | preferredSymmetricAlgorithms
  | revocationKey
  | issuer (id : Nat)
  | ndata
  | preferredHashAlgorithms
  | preferredCompressionAlgorithms
  | keyServerPreferences
  | preferredKeyServer
  | primaryUserId
  | policyUri
  | keyFlags
  | signerUserId
  | revocationReason
  | features
  | signatureTarget
  | embeddedSignature
  | unknown (tag : Nat) (length : Nat)
deriving DecidableEq

/-- byteorder read_u32 from a byte slice: takes the first four bytes
big-endian, failing when fewer than four are available; extra bytes
after the first four are left unread. -/
def read_u32 (contents : List Nat) : Option Nat :=
  if 4 ≤ contents.length then some (beBytesToNat (contents.take 4)) else none

/-- byteorder read_u64 from a byte slice, as read_u32 with eight bytes. -/
def read_u64 (contents : List Nat) : Option Nat :=
  if 8 ≤ contents.length then some (beBytesToNat (contents.take 8)) else none

/-- The type-tag dispatch at the end of parse_subpacket in
src/signature.rs, factored into its own definition. -/
def subpacketDispatch (subpacket_type : Nat) (remaining packet_contents : List Nat)
    (length : Nat) : NomResult Subpacket :=
  match subpacket_type with
  | 0 | 1 | 8 | 13 | 14 | 15 | 17 | 18 | 19 => .error (.custom 2)
  | 2 =>
    match read_u32 packet_contents with
    | some time_secs => .done remaining (.signatureCreationTime time_secs)
    | none => .error (.custom 3)
  | 3 =>
    match read_u32 packet_contents with
    | some time_secs => .done remaining (.signatureExpirationTime time_secs)
    | none => .error (.custom 3)
  | 16 =>
    match read_u64 packet_contents with
    | some issuer => .done remaining (.issuer issuer)
    | none => .error (.custom 3)
  | t => .done remaining (.unknown t length)

/-- The wrapping u32 subtraction length - 1 that the source performs on
the declared length (a u32, hence always below 2 ^ 32): a length of 0
wraps to 2 ^ 32 - 1 in a release build (a debug build would abort on the
overflow), any other length gives length - 1.  On the u32 range this
agrees with the modular form (length + 2 ^ 32 - 1) % 2 ^ 32, see
u32_sub_one_eq_mod. -/
def u32_sub_one (length : Nat) : Nat :=
  if length = 0 then 2 ^ 32 - 1 else length - 1

/-- Sanity check: u32_sub_one is the modular wrapping subtraction on the
u32 range. -/
theorem u32_sub_one_eq_mod (length : Nat) (h : length < 2 ^ 32) :
    u32_sub_one length = (length + (2 ^ 32 - 1)) % 2 ^ 32 := by
  have hpow : (2 : Nat) ^ 32 = 4294967296 := by norm_num
  unfold u32_sub_one
  rw [hpow]
  rw [hpow] at h
  by_cases h0 : length = 0
  · subst h0
    simp
  · rw [if_neg h0]
    omega

/-- parse_subpacket from src/signature.rs: length (subpacket_length),
one type octet, then take!(length - 1) payload bytes (with the wrapping
u32 subtraction u32_sub_one), then dispatch on the type tag
(subpacketDispatch). -/
def parse_subpacket (inp : List Nat) : NomResult Subpacket :=
  nbind (subpacket_length inp) fun remaining length =>
  nbind (be_u8 remaining) fun remaining subpacket_type =>
  nbind (takeN (u32_sub_one length) remaining) fun remaining packet_contents =>
  subpacketDispatch subpacket_type remaining packet_contents length

/-- C1: subpacket_length implements the three-tier scheme exactly: a
first octet below 192 is returned as the length consuming one octet; a
first octet in [192, 254] yields (first - 192) * 256 + second + 192
consuming two octets; a first octet of 255 yields the next four octets
big-endian consuming five octets; and the five listed concrete inputs
decode to 0, 191, 192, 16319 and 256 respectively. -/
theorem c1_subpacket_length_three_tier :
    (∀ b0 rest, b0 < 192 → subpacket_length (b0 :: rest) = .done rest b0)
    ∧ (∀ b0 b1 rest, 192 ≤ b0 → b0 ≤ 254 →
        subpacket_length (b0 :: b1 :: rest) = .done rest ((b0 - 192) * 256 + b1 + 192))
    ∧ (∀ a b c d rest,
        subpacket_length (255 :: a :: b :: c :: d :: rest) =
          .done rest (((a * 256 + b) * 256 + c) * 256 + d))
    ∧ subpacket_length [0] = .done [] 0
    ∧ subpacket_length [191] = .done [] 191
    ∧ subpacket_length [192, 0] = .done [] 192
    ∧ subpacket_length [254, 255] = .done [] 16319
    ∧ subpacket_length [255, 0, 0, 1, 0] = .done [] 256 := by
  refine ⟨?_, ?_, ?_, rfl, rfl, rfl, rfl, rfl⟩
  · intro b0 rest h
    simp [subpacket_length, nbind, be_u8, h]
  · intro b0 b1 rest h1 h2
    have hn : ¬ b0 < 192 := by omega
    have hlt : b0 < 255 := by omega
    simp [subpacket_length, nbind, be_u8, hn, hlt]
  · intro a b c d rest
    have hn : ¬ (255 : Nat) < 192 := by omega
    have hlt : ¬ (255 : Nat) < 255 := by omega
    simp [subpacket_length, nbind, be_u8, hn, hlt, be_u32, beUint, beBytesToNat]

/-- C1 witness: the one-octet branch at the concrete input [100, 7]. -/
theorem c1_witness :
    (100 : Nat) < 192 ∧ subpacket_length [100, 7] = .done [7] 100 :=
  ⟨by decide, c1_subpacket_length_three_tier.1 100 [7] (by decide)⟩

/-- Helper equation: nbind on a Done result applies the continuation. -/
theorem nbind_done {α β : Type} (i : List Nat) (o : α) (f : List Nat → α → NomResult β) :
    nbind (.done i o) f = f i o := rfl

/-- Helper equation: be_u8 on a non-empty input takes its first byte. -/
theorem be_u8_cons (b : Nat) (rest : List Nat) : be_u8 (b :: rest) = .done rest b := rfl

/-- Helper equation: takeN succeeds when enough bytes remain. -/
theorem takeN_of_le {cnt : Nat} {inp : List Nat} (h : ¬ inp.length < cnt) :
    takeN cnt inp = .done (inp.drop cnt) (inp.take cnt) := by
  unfold takeN
  rw [if_neg h]

/-- Helper equation: takeN is Incomplete when too few bytes remain. -/
theorem takeN_of_lt {cnt : Nat} {inp : List Nat} (h : inp.length < cnt) :
    takeN cnt inp = .incomplete (.size cnt) := by
  unfold takeN
  rw [if_pos h]

/-- Helper equation: be_u8 on empty input is Incomplete. -/
theorem be_u8_nil : be_u8 [] = .incomplete (.size 1) := rfl

/-- Helper equation: nbind forwards an Incomplete result. -/
theorem nbind_incomplete {α β : Type} (n : Needed) (f : List Nat → α → NomResult β) :
    nbind (.incomplete n) f = (.incomplete n : NomResult β) := rfl

/-- Helper equation: nbind forwards an Error result. -/
theorem nbind_error {α β : Type} (e : ErrKind) (f : List Nat → α → NomResult β) :
    nbind (.error e) f = (.error e : NomResult β) := rfl

/-- Helper: a Done result of subpacket_length leaves a strictly shorter
remaining input. -/
theorem subpacket_length_remaining_lt {inp r : List Nat} {v : Nat}
    (h : subpacket_length inp = .done r v) : r.length < inp.length := by
  match inp with
  | [] => simp [subpacket_length, nbind, be_u8] at h
  | b0 :: rest =>
    simp only [subpacket_length, nbind, be_u8] at h
    by_cases h1 : b0 < 192
    · simp only [if_pos h1] at h
      cases h
      simp
    · simp only [if_neg h1] at h
      by_cases h2 : b0 < 255
      · simp only [if_pos h2] at h
        match rest with
        | [] => simp at h
        | b1 :: rest2 =>
          simp only [be_u8] at h
          cases h
          simp
          omega
      · simp only [if_neg h2, be_u32, beUint] at h
        by_cases h3 : 4 ≤ rest.length
        · simp only [if_pos h3] at h
          cases h
          simp
          omega
        · simp [if_neg h3] at h

/-- Helper: once subpacket_length has produced a non-empty remaining
input, parse_subpacket reduces to the take of the wrapped payload count
followed by the type-tag dispatch. -/
theorem parse_subpacket_reduce {inp r2 : List Nat} {tag len : Nat}
    (hsl : subpacket_length inp = .done (tag :: r2) len) :
    parse_subpacket inp =
      nbind (takeN (u32_sub_one len) r2)
        (fun remaining packet_contents => subpacketDispatch tag remaining packet_contents len) := by
  unfold parse_subpacket
  rw [hsl]
  simp only [nbind_done, be_u8_cons]

/-- Helper: with a declared length of at least 1 and the whole payload
available, parse_subpacket takes the next length - 1 bytes as the
payload and dispatches on the type tag. -/
theorem parse_subpacket_done_front {inp r2 : List Nat} {tag len : Nat}
    (hsl : subpacket_length inp = .done (tag :: r2) len)
    (h1 : 1 ≤ len) (h3 : len - 1 ≤ r2.length) :
    parse_subpacket inp =
      subpacketDispatch tag (r2.drop (len - 1)) (r2.take (len - 1)) len := by
  have hw : u32_sub_one len = len - 1 := by
    unfold u32_sub_one
    rw [if_neg (by omega)]
  rw [parse_subpacket_reduce hsl, hw, takeN_of_le (by omega), nbind_done]

/-- C4: a subpacket whose declared length is valid (at least 1, with the
whole payload of length - 1 bytes present after the type octet) and
whose type tag lies in the reserved set {0, 1, 8, 13, 14, 15, 17, 18,
19} always fails with Custom 2, which NomError maps to
UseOfReservedValue, distinct from the integer-read error Custom 3 and
from any Incomplete (truncation) result. -/
theorem c4_reserved_tags_rejected :
    (∀ (inp r2 : List Nat) (tag len : Nat),
      subpacket_length inp = .done (tag :: r2) len →
      1 ≤ len → len - 1 ≤ r2.length →
      tag ∈ ([0, 1, 8, 13, 14, 15, 17, 18, 19] : List Nat) →
      parse_subpacket inp = .error (.custom 2))
    ∧ (ErrKind.custom 2 ≠ ErrKind.custom 3
       ∧ ∀ n, (NomResult.error (.custom 2) : NomResult Subpacket) ≠ .incomplete n) := by
  constructor
  · intro inp r2 tag len hsl h1 h3 htag
    rw [parse_subpacket_done_front hsl h1 h3]
    simp only [List.mem_cons, List.not_mem_nil, or_false] at htag
    rcases htag with h | h | h | h | h | h | h | h | h <;> subst h <;> rfl
  · exact ⟨by decide, fun n => by simp⟩

/-- C4 witness: the reserved tag 0 inside the two-byte subpacket [1, 0]
(declared length 1, empty payload). -/
theorem c4_witness : parse_subpacket [1, 0] = .error (.custom 2) :=
  c4_reserved_tags_rejected.1 [1, 0] [] 0 1 rfl (by decide) (by decide) (by decide)

/-- Helper equation: the tag 2 branch of the dispatch. -/
theorem subpacketDispatch_two (rem pc : List Nat) (len : Nat) :
    subpacketDispatch 2 rem pc len =
      match read_u32 pc with
      | some t => .done rem (.signatureCreationTime t)
      | none => .error (.custom 3) := rfl

/-- Helper equation: the tag 3 branch of the dispatch. -/
theorem subpacketDispatch_three (rem pc : List Nat) (len : Nat) :
    subpacketDispatch 3 rem pc len =
      match read_u32 pc with
      | some t => .done rem (.signatureExpirationTime t)
      | none => .error (.custom 3) := rfl

/-- Helper equation: the tag 16 branch of the dispatch. -/
theorem subpacketDispatch_sixteen (rem pc : List Nat) (len : Nat) :
    subpacketDispatch 16 rem pc len =
      match read_u64 pc with
      | some issuer => .done rem (.issuer issuer)
      | none => .error (.custom 3) := rfl

/-- Helper equation: read_u32 succeeds on four or more bytes. -/
theorem read_u32_of_le {l : List Nat} (h : 4 ≤ l.length) :
    read_u32 l = some (beBytesToNat (l.take 4)) := by
  unfold read_u32
  rw [if_pos h]

/-- Helper equation: read_u32 fails on fewer than four bytes. -/
theorem read_u32_of_lt {l : List Nat} (h : l.length < 4) : read_u32 l = none := by
  unfold read_u32
  rw [if_neg (by omega)]

/-- Helper equation: read_u64 succeeds on eight or more bytes. -/
theorem read_u64_of_le {l : List Nat} (h : 8 ≤ l.length) :
    read_u64 l = some (beBytesToNat (l.take 8)) := by
  unfold read_u64
  rw [if_pos h]

/-- Helper equation: read_u64 fails on fewer than eight bytes. -/
theorem read_u64_of_lt {l : List Nat} (h : l.length < 8) : read_u64 l = none := by
  unfold read_u64
  rw [if_neg (by omega)]

/-- C6 counterexample: the claim says a tag 2 subpacket decodes
successfully only when its payload is exactly four bytes, but the
subpacket [6, 2, 0, 0, 0, 1, 9] with a five-byte payload decodes
successfully (the fifth payload byte is ignored). -/
theorem c6_counterexample :
    parse_subpacket [6, 2, 0, 0, 0, 1, 9] = .done [] (.signatureCreationTime 1)
    ∧ ([0, 0, 0, 1, 9] : List Nat).length ≠ 4 := ⟨rfl, by decide⟩

/-- C6 amended: a subpacket with tag 2 or 3 (resp. 16) whose declared
length is valid decodes successfully if and only if its payload has at
least 4 (resp. 8) bytes; the value read is the big-endian interpretation
of the first 4 (resp. 8) payload bytes, any extra payload bytes being
ignored, and a shorter payload fails with the integer-read error
Custom 3. -/
theorem c6_time_and_issuer_payloads :
    ∀ (inp r2 : List Nat) (tag len : Nat),
    subpacket_length inp = .done (tag :: r2) len → 1 ≤ len → len - 1 ≤ r2.length →
    ((tag = 2 ∨ tag = 3) →
      ((4 ≤ len - 1 →
         parse_subpacket inp = .done (r2.drop (len - 1))
           (if tag = 2 then .signatureCreationTime (beBytesToNat ((r2.take (len - 1)).take 4))
            else .signatureExpirationTime (beBytesToNat ((r2.take (len - 1)).take 4))))
       ∧ (len - 1 < 4 → parse_subpacket inp = .error (.custom 3))))
    ∧ (tag = 16 →
      ((8 ≤ len - 1 →
         parse_subpacket inp = .done (r2.drop (len - 1))
           (.issuer (beBytesToNat ((r2.take (len - 1)).take 8))))
       ∧ (len - 1 < 8 → parse_subpacket inp = .error (.custom 3)))) := by
  intro inp r2 tag len hsl h1 h3
  rw [parse_subpacket_done_front hsl h1 h3]
  have hlen : (r2.take (len - 1)).length = len - 1 := by
    rw [List.length_take]
    omega
  constructor
  · rintro (h | h) <;> subst h
    · rw [subpacketDispatch_two]
      constructor
      · intro h4
        rw [read_u32_of_le (by omega)]
        simp
      · intro h4
        rw [read_u32_of_lt (by omega)]
    · rw [subpacketDispatch_three]
      constructor
      · intro h4
        rw [read_u32_of_le (by omega)]
        simp
      · intro h4
        rw [read_u32_of_lt (by omega)]
  · rintro h
    subst h
    rw [subpacketDispatch_sixteen]
    constructor
    · intro h8
      rw [read_u64_of_le (by omega)]
    · intro h8
      rw [read_u64_of_lt (by omega)]

/-- C6 witness: the tag 16 issuer subpacket [9, 16, 0, 0, 0, 0, 0, 0, 0, 5]
with exactly an eight-byte payload decodes to Issuer 5. -/
theorem c6_witness :
    parse_subpacket [9, 16, 0, 0, 0, 0, 0, 0, 0, 5] = .done [] (.issuer 5) := by
  have h := (c6_time_and_issuer_payloads [9, 16, 0, 0, 0, 0, 0, 0, 0, 5]
    [0, 0, 0, 0, 0, 0, 0, 5] 16 9 rfl (by decide) (by decide)).2 rfl
  exact h.1 (by decide)

/-- C10: whenever the leading variable-length field of a subpacket
decodes to 0, parse_subpacket never returns a successfully decoded
subpacket on any input of u32-representable size: the payload count is
the wrapping u32 computation 0 - 1 = 2 ^ 32 - 1, which the remaining
bytes can never satisfy, so the parse fails (a debug build would already
abort on the overflow). -/
theorem c10_zero_declared_length_never_done :
    ∀ (inp r : List Nat), subpacket_length inp = .done r 0 →
    inp.length < 2 ^ 32 → (parse_subpacket inp).isDone = false := by
  intro inp r hsl hlen
  have hrem := subpacket_length_remaining_lt hsl
  match r with
  | [] =>
    have : parse_subpacket inp = .incomplete (.size 1) := by
      unfold parse_subpacket
      rw [hsl, nbind_done, be_u8_nil, nbind_incomplete]
    rw [this]
    rfl
  | t :: r2 =>
    have hz : u32_sub_one 0 = 2 ^ 32 - 1 := by
      unfold u32_sub_one
      rw [if_pos rfl]
    have hpow : (2 : Nat) ^ 32 = 4294967296 := by norm_num
    have hshort : r2.length < u32_sub_one 0 := by
      rw [hz, hpow]
      rw [hpow] at hlen
      simp only [List.length_cons] at hrem
      omega
    have : parse_subpacket inp = .incomplete (.size (u32_sub_one 0)) := by
      rw [parse_subpacket_reduce hsl, takeN_of_lt hshort, nbind_incomplete]
    rw [this]
    rfl

/-- C10 witness: the single byte 0 declares length 0 and the parse is
not Done there. -/
theorem c10_witness :
    subpacket_length [0] = .done [] 0 ∧ (parse_subpacket [0]).isDone = false :=
  ⟨rfl, c10_zero_declared_length_never_done [0] [] rfl (by decide)⟩

/-- The SignatureType enum of src/signature.rs. -/
inductive SignatureType where
  | binaryDocument
  | textDocument
  | standalone
  | genericCertification
  | personaCertification
  | casualCertification
  | positiveCertification
  | subkeyBinding
  | primaryKeyBinding
  | directKey
  | keyRevocation
  | subkeyRevocation
  | certificationRevocation
  | timestamp
  | thirdPartyConfirmation
  | unknown
deriving DecidableEq

/-- From u8 for SignatureType (src/signature.rs), a total mapping. -/
def SignatureType.fromU8 (val : Nat) : SignatureType :=
  match val with
  | 0x00 => .binaryDocument
  | 0x01 => .textDocument
  | 0x02 => .standalone
  | 0x10 => .genericCertification
  | 0x11 => .personaCertification
  | 0x12 => .casualCertification
  | 0x13 => .positiveCertification
  | 0x18 => .subkeyBinding
  | 0x19 => .primaryKeyBinding
  | 0x1F => .directKey
  | 0x20 => .keyRevocation
  | 0x28 => .subkeyRevocation
  | 0x30 => .certificationRevocation
  | 0x40 => .timestamp
  | 0x50 => .thirdPartyConfirmation
  | _ => .unknown

/-- The PublicKeyAlgorithm enum of src/types.rs. -/
inductive PublicKeyAlgorithm where
  | rsa
  | rsaEncryptOnly
  | rsaSignOnly
  | elgamalEncryptOnly
  | dsa
  | ellipticCurve
  | ecdsa
  | elgamal
  | diffieHellman
  | unknown
deriving DecidableEq

/-- From u8 for PublicKeyAlgorithm (src/types.rs), a total mapping. -/
def PublicKeyAlgorithm.fromU8 (val : Nat) : PublicKeyAlgorithm :=
  match val with
  | 1 => .rsa
  | 2 => .rsaEncryptOnly
  | 3 => .rsaSignOnly
  | 16 => .elgamalEncryptOnly
  | 17 => .dsa
  | 18 => .ellipticCurve
  | 19 => .ecdsa
  | 20 => .elgamal
  | 21 => .diffieHellman
  | _ => .unknown

/-- The HashAlgorithm enum of src/types.rs. -/
inductive HashAlgorithm where
  | md5
  | sha1
  | ripemd160
  | sha256
  | sha384
  | sha512
  | sha224
  | unknown
deriving DecidableEq

/-- From u8 for HashAlgorithm (src/types.rs), a total mapping. -/
def HashAlgorithm.fromU8 (val : Nat) : HashAlgorithm :=
  match val with
  | 1 => .md5
  | 2 => .sha1
  | 3 => .ripemd160
  | 8 => .sha256
  | 9 => .sha384
  | 10 => .sha512
  | 11 => .sha224
  | _ => .unknown

/-- The SignaturePacket struct of src/signature.rs.  Timestamps are
Durations built with Duration::from_secs, modelled by their second
count. -/
structure SignaturePacket where
  sig_type : SignatureType
  timestamp : Option Nat
  signer : Option Nat
  pubkey_algo : PublicKeyAlgorithm
  hash_algo : HashAlgorithm
  hashed_subpackets : List Subpacket
  unhashed_subpackets : List Subpacket
  signature_contents : List Nat
deriving DecidableEq

/-- Rust Option::or (eagerly evaluated second argument). -/
def optOr {α : Type} (a b : Option α) : Option α :=
  match a with
  | some x => some x
  | none => b

/-- find_timestamp of src/signature.rs: the first SignatureCreationTime
entry of the list, if any. -/
def find_timestamp (subs : List Subpacket) : Option Nat :=
  match subs with
  | [] => none
  | .signatureCreationTime out :: _ => some out
  | _ :: rest => find_timestamp rest

/-- find_signer of src/signature.rs: the first Issuer entry of the list,
if any. -/
def find_signer (subs : List Subpacket) : Option Nat :=
  match subs with
  | [] => none
  | .issuer out :: _ => some out
  | _ :: rest => find_signer rest

/-- The iteration core of the nom 3 many0 loop as used by the subpackets
parser: on empty input stop with Done; on a sub-parser Error stop with
Done and the results so far (errors are swallowed); propagate Incomplete
(adding the bytes already consumed to a Size marker, as the loop does
relative to its starting input; the usize overflow branch of that
addition is unreachable for bounded inputs and is not modelled); on a
sub-parse that consumed nothing fail with the Many0 error.  The fuel
argument only drives the recursion: every continuing iteration strictly
consumes input, so a fuel of input length + 1 never runs out (the fuel 0
branch is unreachable from subpackets, see subpacketsGo_fuel_irrel). -/
def subpacketsGo (fuel : Nat) (inp : List Nat) : NomResult (List Subpacket) :=
  match fuel with
  | 0 => .incomplete .unknownNeeded
  | fuel + 1 =>
    if inp = [] then .done inp []
    else
      match parse_subpacket inp with
      | .error _ => .done inp []
      | .incomplete n => .incomplete n
      | .done i o =>
        if inp.length ≤ i.length then .error .many0Err
        else
          match subpacketsGo fuel i with
          | .done i2 os => .done i2 (o :: os)
          | .error e => .error e
          | .incomplete .unknownNeeded => .incomplete .unknownNeeded
          | .incomplete (.size n) => .incomplete (.size (n + (inp.length - i.length)))

/-- subpackets of src/signature.rs: many0!(parse_subpacket). -/
def subpackets (inp : List Nat) : NomResult (List Subpacket) :=
  subpacketsGo (inp.length + 1) inp

/-- nom 3 length_value!: read a length with f, take that many bytes,
run g on the taken slice; within the slice an Incomplete from g is
turned into an error (the slice is complete) and leftover slice bytes
after g are discarded. -/
def length_value {α : Type} (f : List Nat → NomResult Nat) (g : List Nat → NomResult α)
    (inp : List Nat) : NomResult α :=
  match f inp with
  | .error e => .error e
  | .incomplete x => .incomplete x
  | .done i o =>
    match takeN o i with
    | .error e => .error e
    | .incomplete x => .incomplete x
    | .done i2 o2 =>
      match g o2 with
      | .error e => .error e
      | .incomplete _ => .error .completeErr
      | .done _ o3 => .done i2 o3

/-- v3_sig of src/signature.rs: the legacy 0x03 0x05 fixed layout. -/
def v3_sig (inp : List Nat) : NomResult SignaturePacket :=
  nbind (tagByte 3 inp) fun inp _ =>
  nbind (tagByte 5 inp) fun inp _ =>
  nbind (be_u8 inp) fun inp signature_type =>
  nbind (be_u32 inp) fun inp creation_time =>
  nbind (be_u64 inp) fun inp signer =>
  nbind (be_u8 inp) fun inp pubkey_algo =>
  nbind (be_u8 inp) fun inp hash_algo =>
  nbind (takeN 2 inp) fun inp _ =>
  nbind (restParse inp) fun inp signature =>
  .done inp
    { sig_type := SignatureType.fromU8 signature_type
      timestamp := some creation_time
      signer := some signer
      pubkey_algo := PublicKeyAlgorithm.fromU8 pubkey_algo
      hash_algo := HashAlgorithm.fromU8 hash_algo
      hashed_subpackets := []
      unhashed_subpackets := []
      signature_contents := signature }

/-- v4_sig of src/signature.rs: the modern 0x04 layout with two 16-bit
length-prefixed subpacket sections, timestamp and signer derived by
scanning the hashed section first with Option::or fallback to the
unhashed section. -/
def v4_sig (inp : List Nat) : NomResult SignaturePacket :=
  nbind (tagByte 4 inp) fun inp _ =>
  nbind (be_u8 inp) fun inp signature_type =>
  nbind (be_u8 inp) fun inp pubkey_algo =>
  nbind (be_u8 inp) fun inp hash_algo =>
  nbind (length_value be_u16 subpackets inp) fun inp hashed_subs =>
  nbind (length_value be_u16 subpackets inp) fun inp unhashed_subs =>
  nbind (takeN 2 inp) fun inp _ =>
  nbind (restParse inp) fun inp signature =>
  .done inp
    { sig_type := SignatureType.fromU8 signature_type
      timestamp := optOr (find_timestamp hashed_subs) (find_timestamp unhashed_subs)
      signer := optOr (find_signer hashed_subs) (find_signer unhashed_subs)
      pubkey_algo := PublicKeyAlgorithm.fromU8 pubkey_algo
      hash_algo := HashAlgorithm.fromU8 hash_algo
      hashed_subpackets := hashed_subs
      unhashed_subpackets := unhashed_subs
      signature_contents := signature }

/-- signature of src/signature.rs: alt!(v3_sig | v4_sig); nom alt tries
the next branch on Error, propagates Incomplete, and reports an Alt
error when every branch errors. -/
def signature (inp : List Nat) : NomResult SignaturePacket :=
  match v3_sig inp with
  | .done i o => .done i o
  | .incomplete n => .incomplete n
  | .error _ =>
    match v4_sig inp with
    | .done i o => .done i o
    | .incomplete n => .incomplete n
    | .error _ => .error .altErr

/-- The NomError enum of src/types.rs. -/
inductive NomError where
  | unimplemented
  | useOfReservedValue
  | integerReadError
  | unknown
deriving DecidableEq

/-- From u32 for NomError (src/types.rs). -/
def NomError.fromU32 (val : Nat) : NomError :=
  match val with
  | 1 => .unimplemented
  | 2 => .useOfReservedValue
  | 3 => .integerReadError
  | _ => .unknown

/-- The data carried by the reason string that from_bytes formats into
its InvalidFormat error: a decoded NomError for Custom errors, the raw
nom error kind otherwise, or the Needed marker for Incomplete. -/
inductive FailureReason where
  | customError (e : NomError)
  | nomError (e : ErrKind)
  | incompleteInput (n : Needed)
deriving DecidableEq

/-- The SignatureError enum of src/signature.rs. -/
inductive SignatureError where
  | invalidFormat (reason : FailureReason)
deriving DecidableEq

/-- SignaturePacket::from_bytes of src/signature.rs: run the signature
parser; Done yields the packet, a Custom error is decoded through
NomError, any other error and Incomplete become InvalidFormat errors. -/
def SignaturePacket.from_bytes (bytes : List Nat) : Except SignatureError SignaturePacket :=
  match signature bytes with
  | .done _ sig => .ok sig
  | .error (.custom e) => .error (.invalidFormat (.customError (NomError.fromU32 e)))
  | .error e => .error (.invalidFormat (.nomError e))
  | .incomplete i => .error (.invalidFormat (.incompleteInput i))

/-- Subpacket::to_bytes of src/signature.rs: a creation-time subpacket
is written as the type octet 2 followed by the four-byte big-endian
seconds count truncated to u32; an issuer subpacket as the type octet 16
followed by the eight-byte big-endian id; every other variant produces
no bytes.  No length octet is written by this function. -/
def Subpacket.to_bytes (s : Subpacket) : List Nat :=
  match s with
  | .signatureCreationTime time => 2 :: natToBytesBE (time % 2 ^ 32) 4
  | .issuer ident => 16 :: natToBytesBE (ident % 2 ^ 64) 8
  | _ => []

/-- Helper: inversion of a Done result through nbind. -/
theorem nbind_done_inv {α β : Type} {r : NomResult α} {f : List Nat → α → NomResult β}
    {i : List Nat} {o : β} (h : nbind r f = .done i o) :
    ∃ i1 o1, r = .done i1 o1 ∧ f i1 o1 = .done i o := by
  cases r with
  | done i1 o1 => exact ⟨i1, o1, rfl, h⟩
  | error e => injection h
  | incomplete n => injection h

/-- Helper equation: tagByte succeeds on its own byte. -/
theorem tagByte_eq (b : Nat) (rest : List Nat) : tagByte b (b :: rest) = .done rest b := by
  have hm : tagByte b (b :: rest) =
      if b = b then .done rest b else .error .tagErr := rfl
  rw [hm, if_pos rfl]

/-- Helper equation: tagByte fails on a different byte. -/
theorem tagByte_ne {x b : Nat} (rest : List Nat) (h : x ≠ b) :
    tagByte b (x :: rest) = .error .tagErr := by
  have hm : tagByte b (x :: rest) =
      if x = b then .done rest b else .error .tagErr := rfl
  rw [hm, if_neg h]

/-- Helper equation: a fixed-width big-endian read splits an append at
the width. -/
theorem beUint_append {k : Nat} {l : List Nat} (rest : List Nat) (h : l.length = k) :
    beUint k (l ++ rest) = .done rest (beBytesToNat l) := by
  subst h
  unfold beUint
  rw [if_pos (by simp), List.take_left, List.drop_left]

/-- Helper equation: takeN splits an append at the count. -/
theorem takeN_append {k : Nat} {l : List Nat} (rest : List Nat) (h : l.length = k) :
    takeN k (l ++ rest) = .done rest l := by
  subst h
  unfold takeN
  rw [if_neg (by simp), List.take_left, List.drop_left]

/-- Helper: a successful from_bytes comes from a Done of the signature
parser with the same packet. -/
theorem from_bytes_ok_inv {bytes : List Nat} {pkt : SignaturePacket}
    (h : SignaturePacket.from_bytes bytes = .ok pkt) :
    ∃ i, signature bytes = .done i pkt := by
  unfold SignaturePacket.from_bytes at h
  cases hs : signature bytes with
  | done i o =>
    rw [hs] at h
    injection h with h
    subst h
    exact ⟨i, rfl⟩
  | error e =>
    rw [hs] at h
    cases e <;> injection h
  | incomplete n =>
    rw [hs] at h
    injection h

/-- Helper: on an input starting with byte 4 the v3 branch fails on its
leading tag, so the signature parser is decided by v4_sig. -/
theorem signature_head4 (rest : List Nat) :
    signature (4 :: rest) =
      match v4_sig (4 :: rest) with
      | .done i o => .done i o
      | .incomplete n => .incomplete n
      | .error _ => .error .altErr := rfl

/-- Helper: the fields of any packet produced by v4_sig: timestamp and
signer are the hashed-first Option::or scans of its own subpacket
lists. -/
theorem v4_sig_fields {inp i : List Nat} {pkt : SignaturePacket}
    (h : v4_sig inp = .done i pkt) :
    pkt.timestamp =
      optOr (find_timestamp pkt.hashed_subpackets) (find_timestamp pkt.unhashed_subpackets)
    ∧ pkt.signer =
      optOr (find_signer pkt.hashed_subpackets) (find_signer pkt.unhashed_subpackets) := by
  unfold v4_sig at h
  obtain ⟨i1, o1, -, h⟩ := nbind_done_inv h
  obtain ⟨i2, o2, -, h⟩ := nbind_done_inv h
  obtain ⟨i3, o3, -, h⟩ := nbind_done_inv h
  obtain ⟨i4, o4, -, h⟩ := nbind_done_inv h
  obtain ⟨i5, o5, -, h⟩ := nbind_done_inv h
  obtain ⟨i6, o6, -, h⟩ := nbind_done_inv h
  obtain ⟨i7, o7, -, h⟩ := nbind_done_inv h
  obtain ⟨i8, o8, -, h⟩ := nbind_done_inv h
  injection h with hi hp
  subst hp
  exact ⟨rfl, rfl⟩

/-- C2: the round trip fails in the code.  Subpacket::to_bytes writes no
length octet: a creation-time subpacket for timestamp 0 encodes to
[2, 0, 0, 0, 0], whose first byte 2 parse_subpacket reads as the
declared length (not as 1 + payload = 5) and whose second byte 0 it
reads as the type tag, failing with the reserved-value error; an issuer
subpacket for id 1 encodes to nine bytes that parse_subpacket rejects as
incomplete. -/
theorem c2_to_bytes_not_parseable :
    Subpacket.to_bytes (.signatureCreationTime 0) = [2, 0, 0, 0, 0]
    ∧ parse_subpacket (Subpacket.to_bytes (.signatureCreationTime 0)) = .error (.custom 2)
    ∧ (Subpacket.to_bytes (.signatureCreationTime 0)).head? = some 2
    ∧ Subpacket.to_bytes (.issuer 1) = [16, 0, 0, 0, 0, 0, 0, 0, 1]
    ∧ parse_subpacket (Subpacket.to_bytes (.issuer 1)) = .incomplete (.size 15) :=
  ⟨rfl, rfl, rfl, rfl, rfl⟩

/-- C3: for every successfully decoded modern (0x04) packet the derived
timestamp is the hashed-first Option::or scan for the first
creation-time subpacket, and the signer likewise for the first issuer
subpacket; the scans return the first match in iteration order and None
when absent in both sections, and a hashed-section hit always wins over
the unhashed section. -/
theorem c3_modern_timestamp_signer_derivation :
    (∀ (bytes : List Nat) (pkt : SignaturePacket),
      bytes.head? = some 4 →
      SignaturePacket.from_bytes bytes = .ok pkt →
      pkt.timestamp =
        optOr (find_timestamp pkt.hashed_subpackets) (find_timestamp pkt.unhashed_subpackets)
      ∧ pkt.signer =
        optOr (find_signer pkt.hashed_subpackets) (find_signer pkt.unhashed_subpackets))
    ∧ (find_timestamp [] = none
       ∧ (∀ t rest, find_timestamp (.signatureCreationTime t :: rest) = some t)
       ∧ (∀ sp rest, (∀ t, sp ≠ .signatureCreationTime t) →
           find_timestamp (sp :: rest) = find_timestamp rest))
    ∧ (find_signer [] = none
       ∧ (∀ v rest, find_signer (.issuer v :: rest) = some v)
       ∧ (∀ sp rest, (∀ v, sp ≠ .issuer v) →
           find_signer (sp :: rest) = find_signer rest))
    ∧ (∀ (a b : Option Nat),
        (∀ t, a = some t → optOr a b = some t) ∧ (a = none → optOr a b = b)) := by
  refine ⟨?_, ⟨rfl, fun t rest => rfl, ?_⟩, ⟨rfl, fun v rest => rfl, ?_⟩, ?_⟩
  · intro bytes pkt hhead hok
    match bytes, hhead with
    | 4 :: rest, _ =>
      obtain ⟨i, hsig⟩ := from_bytes_ok_inv hok
      rw [signature_head4] at hsig
      cases hv4 : v4_sig (4 :: rest) with
      | done i0 o0 =>
        rw [hv4] at hsig
        injection hsig with hi hp
        subst hp
        exact v4_sig_fields hv4
      | error e =>
        rw [hv4] at hsig
        injection hsig
      | incomplete n =>
        rw [hv4] at hsig
        injection hsig
  · intro sp rest h
    cases sp <;> first | rfl | exact absurd rfl (h _)
  · intro sp rest h
    cases sp <;> first | rfl | exact absurd rfl (h _)
  · intro a b
    constructor
    · intro t ht
      subst ht
      rfl
    · intro ht
      subst ht
      rfl

/-- C3 witness: a modern packet carrying creation time 1 in the hashed
section and creation time 2 in the unhashed section decodes with
timestamp derived by the hashed-first scan, hence 1. -/
theorem c3_witness :
    ([4, 0, 1, 2, 0, 6, 5, 2, 0, 0, 0, 1, 0, 6, 5, 2, 0, 0, 0, 2, 0, 0] : List Nat).head? =
      some 4
    ∧ SignaturePacket.from_bytes
        [4, 0, 1, 2, 0, 6, 5, 2, 0, 0, 0, 1, 0, 6, 5, 2, 0, 0, 0, 2, 0, 0] =
      .ok { sig_type := .binaryDocument
            timestamp := some 1
            signer := none
            pubkey_algo := .rsa
            hash_algo := .sha1
            hashed_subpackets := [.signatureCreationTime 1]
            unhashed_subpackets := [.signatureCreationTime 2]
            signature_contents := [] }
    ∧ optOr (find_timestamp [Subpacket.signatureCreationTime 1])
        (find_timestamp [Subpacket.signatureCreationTime 2]) = some 1
    ∧ (some 1 : Option Nat) =
        optOr (find_timestamp [Subpacket.signatureCreationTime 1])
          (find_timestamp [Subpacket.signatureCreationTime 2]) :=
  ⟨rfl, rfl, rfl,
    (c3_modern_timestamp_signer_derivation.1
      [4, 0, 1, 2, 0, 6, 5, 2, 0, 0, 0, 1, 0, 6, 5, 2, 0, 0, 0, 2, 0, 0]
      { sig_type := .binaryDocument
        timestamp := some 1
        signer := none
        pubkey_algo := .rsa
        hash_algo := .sha1
        hashed_subpackets := [.signatureCreationTime 1]
        unhashed_subpackets := [.signatureCreationTime 2]
        signature_contents := [] }
      rfl rfl).1⟩

/-- C7: the legacy layout: a buffer 03 05 followed by a type byte, four
time bytes, eight signer bytes, the two algorithm bytes, two ignored
bytes and the signature value decodes to a packet with the fields read
in that fixed order, timestamp and signer always present and both
subpacket lists empty; and a buffer starting 03 followed by any byte
other than 05 fails to decode. -/
theorem c7_legacy_layout :
    (∀ (st pk ha : Nat) (t4 s8 ig2 sig : List Nat),
      t4.length = 4 → s8.length = 8 → ig2.length = 2 →
      SignaturePacket.from_bytes
          (3 :: 5 :: st :: (t4 ++ (s8 ++ (pk :: ha :: (ig2 ++ sig))))) =
        .ok { sig_type := SignatureType.fromU8 st
              timestamp := some (beBytesToNat t4)
              signer := some (beBytesToNat s8)
              pubkey_algo := PublicKeyAlgorithm.fromU8 pk
              hash_algo := HashAlgorithm.fromU8 ha
              hashed_subpackets := []
              unhashed_subpackets := []
              signature_contents := sig })
    ∧ (∀ (b : Nat) (rest : List Nat), b ≠ 5 →
        SignaturePacket.from_bytes (3 :: b :: rest) =
          .error (.invalidFormat (.nomError .altErr))) := by
  constructor
  · intro st pk ha t4 s8 ig2 sig h4 h8 h2
    have hv3 : v3_sig (3 :: 5 :: st :: (t4 ++ (s8 ++ (pk :: ha :: (ig2 ++ sig))))) =
        .done []
          { sig_type := SignatureType.fromU8 st
            timestamp := some (beBytesToNat t4)
            signer := some (beBytesToNat s8)
            pubkey_algo := PublicKeyAlgorithm.fromU8 pk
            hash_algo := HashAlgorithm.fromU8 ha
            hashed_subpackets := []
            unhashed_subpackets := []
            signature_contents := sig } := by
      unfold v3_sig
      rw [tagByte_eq]
      simp only [nbind_done]
      rw [tagByte_eq]
      simp only [nbind_done, be_u8_cons]
      rw [show be_u32 (t4 ++ (s8 ++ (pk :: ha :: (ig2 ++ sig)))) =
            .done (s8 ++ (pk :: ha :: (ig2 ++ sig))) (beBytesToNat t4) from
          beUint_append _ h4]
      simp only [nbind_done]
      rw [show be_u64 (s8 ++ (pk :: ha :: (ig2 ++ sig))) =
            .done (pk :: ha :: (ig2 ++ sig)) (beBytesToNat s8) from
          beUint_append _ h8]
      simp only [nbind_done, be_u8_cons]
      rw [takeN_append _ h2]
      simp only [nbind_done]
      rfl
    have hsig : signature (3 :: 5 :: st :: (t4 ++ (s8 ++ (pk :: ha :: (ig2 ++ sig))))) =
        .done []
          { sig_type := SignatureType.fromU8 st
            timestamp := some (beBytesToNat t4)
            signer := some (beBytesToNat s8)
            pubkey_algo := PublicKeyAlgorithm.fromU8 pk
            hash_algo := HashAlgorithm.fromU8 ha
            hashed_subpackets := []
            unhashed_subpackets := []
            signature_contents := sig } := by
      unfold signature
      rw [hv3]
    unfold SignaturePacket.from_bytes
    rw [hsig]
  · intro b rest hb
    have hv3 : v3_sig (3 :: b :: rest) = .error .tagErr := by
      unfold v3_sig
      rw [tagByte_eq]
      simp only [nbind_done]
      rw [tagByte_ne _ hb]
      rfl
    have hv4 : v4_sig (3 :: b :: rest) = .error .tagErr := by
      unfold v4_sig
      rw [tagByte_ne _ (by decide : (3 : Nat) ≠ 4)]
      rfl
    have hsig : signature (3 :: b :: rest) = .error .altErr := by
      unfold signature
      rw [hv3, hv4]
    unfold SignaturePacket.from_bytes
    rw [hsig]

/-- C7 witness: a concrete legacy packet decodes with its fixed fields,
and 03 04 fails. -/
theorem c7_witness :
    SignaturePacket.from_bytes
        [3, 5, 7, 0, 0, 0, 9, 0, 0, 0, 0, 0, 0, 0, 5, 1, 2, 9, 9, 42, 43] =
      .ok { sig_type := .unknown
            timestamp := some 9
            signer := some 5
            pubkey_algo := .rsa
            hash_algo := .sha1
            hashed_subpackets := []
            unhashed_subpackets := []
            signature_contents := [42, 43] }
    ∧ SignaturePacket.from_bytes [3, 4, 1, 2, 3] =
      .error (.invalidFormat (.nomError .altErr)) :=
  ⟨c7_legacy_layout.1 7 1 2 [0, 0, 0, 9] [0, 0, 0, 0, 0, 0, 0, 5] [9, 9] [42, 43]
      rfl rfl rfl,
    c7_legacy_layout.2 4 [1, 2, 3] (by decide)⟩

/-- The AlgorithmError enum of src/types.rs. -/
inductive AlgorithmError where
  | publicKeyAlgorithmError
  | hashAlgorithmError
deriving DecidableEq

/-- HashAlgorithm::asn1_oid of src/types.rs: the fixed ASN.1 object
identifier of each recognized digest, an algorithm error on Unknown. -/
def HashAlgorithm.asn1_oid : HashAlgorithm → Except AlgorithmError (List Nat)
  | .md5 => .ok [1, 2, 840, 113549, 2, 5]
  | .sha1 => .ok [1, 3, 14, 3, 2, 26]
  | .ripemd160 => .ok [1, 3, 36, 3, 2, 1]
  | .sha256 => .ok [2, 16, 840, 1, 101, 3, 4, 2, 1]
  | .sha384 => .ok [2, 16, 840, 1, 101, 3, 4, 2, 2]
  | .sha512 => .ok [2, 16, 840, 1, 101, 3, 4, 2, 3]
  | .sha224 => .ok [2, 16, 840, 1, 101, 3, 4, 2, 4]
  | .unknown => .error .hashAlgorithmError

/-- HashAlgorithm::hash of src/types.rs: each recognized variant
delegates to its external digest provider (md5, sha1, ripemd160, the
sha2 family), modelled as the provider family digest keyed by the
algorithm; Unknown fails with the algorithm error. -/
def HashAlgorithm.hash (a : HashAlgorithm)
    (digest : HashAlgorithm → List Nat → List Nat) (contents : List Nat) :
    Except AlgorithmError (List Nat) :=
  match a with
  | .unknown => .error .hashAlgorithmError
  | alg => .ok (digest alg contents)

/-- C9: the numeric-to-enum hash mapping is total: every id outside the
recognized set {1, 2, 3, 8, 9, 10, 11} maps to Unknown without error;
asn1_oid and hash always fail with the hash-algorithm error on Unknown
and always succeed on every recognized variant (for any digest provider
and contents). -/
theorem c9_hash_algorithm_split :
    (∀ idn : Nat, idn ∉ ([1, 2, 3, 8, 9, 10, 11] : List Nat) →
      HashAlgorithm.fromU8 idn = .unknown)
    ∧ HashAlgorithm.asn1_oid .unknown = .error .hashAlgorithmError
    ∧ (∀ digest contents,
        HashAlgorithm.hash .unknown digest contents = .error .hashAlgorithmError)
    ∧ (∀ a : HashAlgorithm, a ≠ .unknown →
        (∃ oid, a.asn1_oid = .ok oid)
        ∧ ∀ digest contents, ∃ out, a.hash digest contents = .ok out) := by
  refine ⟨?_, rfl, fun digest contents => rfl, ?_⟩
  · intro idn h
    simp only [List.mem_cons, List.not_mem_nil, or_false] at h
    push_neg at h
    obtain ⟨h1, h2, h3, h4, h5, h6, h7⟩ := h
    unfold HashAlgorithm.fromU8
    split <;> first | rfl | omega
  · intro a ha
    cases a <;>
      first
        | exact ⟨⟨_, rfl⟩, fun digest contents => ⟨_, rfl⟩⟩
        | exact absurd rfl ha

/-- C9 witness: id 250 is unrecognized, decodes to Unknown, and the
Unknown variant rejects both operations while Sha256 accepts both. -/
theorem c9_witness :
    (250 : Nat) ∉ ([1, 2, 3, 8, 9, 10, 11] : List Nat)
    ∧ HashAlgorithm.fromU8 250 = .unknown
    ∧ HashAlgorithm.hash .unknown (fun _ _ => []) [1] = .error .hashAlgorithmError
    ∧ ((∃ oid, HashAlgorithm.asn1_oid .sha256 = .ok oid)
       ∧ ∀ digest contents, ∃ out, HashAlgorithm.hash .sha256 digest contents = .ok out) :=
  ⟨by decide, c9_hash_algorithm_split.1 250 (by decide),
    c9_hash_algorithm_split.2.2.1 (fun _ _ => []) [1],
    c9_hash_algorithm_split.2.2.2 .sha256 (by decide)⟩

/-- Bit-length worker, structurally recursive on a fuel so that it
evaluates inside the kernel; any fuel of at least n computes the bit
length of n (see numBitsGo_eq). -/
def numBitsGo (fuel n : Nat) : Nat :=
  match fuel with
  | 0 => 0
  | fuel + 1 => if n = 0 then 0 else numBitsGo fuel (n / 2) + 1

/-- Bit length of a natural number (0 for 0), as the external
big-integer library accounts for its integers. -/
def numBits (n : Nat) : Nat := numBitsGo n n

/-- Helper: the fueled bit length agrees with Nat.log2. -/
theorem numBitsGo_eq : ∀ (fuel n : Nat), n ≤ fuel →
    numBitsGo fuel n = if n = 0 then 0 else Nat.log2 n + 1 := by
  intro fuel
  induction fuel with
  | zero =>
    intro n h
    have : n = 0 := by omega
    subst this
    rfl
  | succ fuel ih =>
    intro n h
    by_cases h0 : n = 0
    · subst h0
      rfl
    · have hstep : numBitsGo (fuel + 1) n = numBitsGo fuel (n / 2) + 1 := by
        simp [numBitsGo, h0]
      rw [hstep, ih (n / 2) (by omega), if_neg h0]
      by_cases h2 : 2 ≤ n
      · have hlog : Nat.log2 n = Nat.log2 (n / 2) + 1 := by
          conv_lhs => rw [Nat.log2]
          rw [if_pos h2]
        rw [if_neg (show ¬ n / 2 = 0 by omega), hlog]
      · have h1 : n = 1 := by omega
        subst h1
        have hlog : Nat.log2 1 = 0 := by
          rw [Nat.log2]
          norm_num
        norm_num [hlog]

/-- Helper: numBits agrees with Nat.log2. -/
theorem numBits_eq (n : Nat) : numBits n = if n = 0 then 0 else Nat.log2 n + 1 :=
  numBitsGo_eq n n (Nat.le_refl n)

/-- Magnitude byte count of an OpenPGP multi-precision integer. -/
def mpiByteLen (n : Nat) : Nat := (numBits n + 7) / 8

/-- Modelled external collaborator Integer::to_bytes(Format::Pgp) of the
gcrypt big-integer library, per the spec interface: the OpenPGP MPI
encoding, a two-byte big-endian bit count followed by the magnitude
bytes; fails when the bit count exceeds the 16-bit length field. -/
def mpi_to_bytes (n : Nat) : Option (List Nat) :=
  if numBits n ≤ 65535 then
    some (natToBytesBE (numBits n) 2 ++ natToBytesBE n (mpiByteLen n))
  else none

/-- Modelled external collaborator Integer::len_encoded(Format::Pgp):
the encoded byte length of an integer value, two length bytes plus the
magnitude bytes. -/
def mpi_len_encoded (n : Nat) : Nat := 2 + mpiByteLen n

/-- Modelled external collaborator Integer::from_bytes(Format::Pgp):
parse one MPI at the front of the buffer (trailing bytes ignored),
failing when the buffer is too short for the declared bit count. -/
def mpi_from_bytes (l : List Nat) : Option Nat :=
  match l with
  | b0 :: b1 :: rest =>
    if (b0 * 256 + b1 + 7) / 8 ≤ rest.length then
      some (beBytesToNat (rest.take ((b0 * 256 + b1 + 7) / 8)))
    else none
  | _ => none

/-- Error for operations delegated to the external big-integer codec. -/
inductive MpiError where
  | mpiCodecError
deriving DecidableEq

/-- The Signature enum of src/signature.rs, with the external Integer
values modelled as natural numbers. -/
inductive Signature where
  | rsa (mpi : Nat)
  | dsa (r s : Nat)
  | unknown (payload : List Nat)
deriving DecidableEq

/-- SignaturePacket::contents of src/signature.rs: interpret the raw
signature bytes by public-key algorithm; the RSA family reads one MPI,
DSA reads r at offset 0 and s at the offset len_encoded(r) reported by
the big-integer codec for the value r, anything else stays opaque.
(When len_encoded exceeds the buffer length the Rust slice index panics;
List.drop then yields the empty list here, and the parse fails.) -/
def SignaturePacket.contents (p : SignaturePacket) : Except MpiError Signature :=
  match p.pubkey_algo with
  | .rsa | .rsaEncryptOnly | .rsaSignOnly =>
    match mpi_from_bytes p.signature_contents with
    | some mpi => .ok (.rsa mpi)
    | none => .error .mpiCodecError
  | .dsa =>
    match mpi_from_bytes p.signature_contents with
    | none => .error .mpiCodecError
    | some mpi_r =>
      match mpi_from_bytes (p.signature_contents.drop (mpi_len_encoded mpi_r)) with
      | some mpi_s => .ok (.dsa mpi_r mpi_s)
      | none => .error .mpiCodecError
  | _ => .ok (.unknown p.signature_contents)

/-- SignaturePacket::set_contents of src/signature.rs: replace the raw
signature bytes with the encoding of the given value; RSA writes one
framed integer, DSA writes the framed bytes of r then s, Unknown copies
the payload verbatim; encoding failures from the big-integer codec are
surfaced. -/
def SignaturePacket.set_contents (p : SignaturePacket) (sig : Signature) :
    Except MpiError SignaturePacket :=
  match sig with
  | .rsa mpi =>
    match mpi_to_bytes mpi with
    | some b => .ok { p with signature_contents := b }
    | none => .error .mpiCodecError
  | .dsa r s =>
    match mpi_to_bytes r, mpi_to_bytes s with
    | some r_vec, some s_vec => .ok { p with signature_contents := r_vec ++ s_vec }
    | _, _ => .error .mpiCodecError
  | .unknown payload => .ok { p with signature_contents := payload }

/-- Helper: natToBytesBE always produces exactly k bytes. -/
theorem natToBytesBE_length : ∀ (k n : Nat), (natToBytesBE n k).length = k := by
  intro k
  induction k with
  | zero => intro n; rfl
  | succ k ih =>
    intro n
    simp [natToBytesBE, ih]

/-- Helper: big-endian value of a list extended by one byte. -/
theorem beBytesToNat_snoc (l : List Nat) (b : Nat) :
    beBytesToNat (l ++ [b]) = beBytesToNat l * 256 + b := by
  unfold beBytesToNat
  rw [List.foldl_append]
  rfl

/-- Helper: beBytesToNat inverts natToBytesBE below the range bound. -/
theorem beBytesToNat_natToBytesBE : ∀ (k n : Nat), n < 256 ^ k →
    beBytesToNat (natToBytesBE n k) = n := by
  intro k
  induction k with
  | zero =>
    intro n h
    simp at h
    subst h
    rfl
  | succ k ih =>
    intro n h
    have hdiv : n / 256 < 256 ^ k := by
      rw [Nat.div_lt_iff_lt_mul (by norm_num)]
      calc n < 256 ^ (k + 1) := h
        _ = 256 ^ k * 256 := by rw [Nat.pow_succ]
    calc beBytesToNat (natToBytesBE n (k + 1))
        = beBytesToNat (natToBytesBE (n / 256) k ++ [n % 256]) := rfl
      _ = beBytesToNat (natToBytesBE (n / 256) k) * 256 + n % 256 := beBytesToNat_snoc _ _
      _ = n / 256 * 256 + n % 256 := by rw [ih _ hdiv]
      _ = n := by omega

/-- Helper: every natural number is below 2 to its bit length. -/
theorem lt_two_pow_numBits (n : Nat) : n < 2 ^ numBits n := by
  rw [numBits_eq]
  by_cases h : n = 0
  · subst h
    simp
  · rw [if_neg h]
    rw [Nat.log2_eq_log_two]
    exact Nat.lt_pow_succ_log_self (by norm_num) n

/-- Helper: the magnitude bytes suffice to carry the value. -/
theorem lt_256_pow_mpiByteLen (n : Nat) : n < 256 ^ mpiByteLen n := by
  have h1 : n < 2 ^ numBits n := lt_two_pow_numBits n
  have h2 : numBits n ≤ 8 * mpiByteLen n := by
    unfold mpiByteLen
    omega
  calc n < 2 ^ numBits n := h1
    _ ≤ 2 ^ (8 * mpiByteLen n) := Nat.pow_le_pow_right (by norm_num) h2
    _ = 256 ^ mpiByteLen n := by
        rw [Nat.pow_mul]

/-- Helper equation: mpi_from_bytes on at least two bytes. -/
theorem mpi_from_bytes_cons (b0 b1 : Nat) (rest : List Nat) :
    mpi_from_bytes (b0 :: b1 :: rest) =
      if (b0 * 256 + b1 + 7) / 8 ≤ rest.length then
        some (beBytesToNat (rest.take ((b0 * 256 + b1 + 7) / 8)))
      else none := rfl

/-- Helper: an encoded MPI parses back to its value at the front of any
buffer, and its byte length agrees with len_encoded of that value. -/
theorem mpi_from_bytes_of_encode {n : Nat} {b : List Nat}
    (h : mpi_to_bytes n = some b) (tail : List Nat) :
    mpi_from_bytes (b ++ tail) = some n ∧ b.length = mpi_len_encoded n := by
  unfold mpi_to_bytes at h
  by_cases hle : numBits n ≤ 65535
  · rw [if_pos hle] at h
    injection h with h
    subst h
    have h2 : natToBytesBE (numBits n) 2 = [numBits n / 256 % 256, numBits n % 256] := rfl
    have hdivlt : numBits n / 256 < 256 := by omega
    have hmod : numBits n / 256 % 256 = numBits n / 256 := Nat.mod_eq_of_lt hdivlt
    have hval : numBits n / 256 % 256 * 256 + numBits n % 256 = numBits n := by
      rw [hmod]
      omega
    constructor
    · rw [h2]
      simp only [List.cons_append, List.nil_append]
      rw [mpi_from_bytes_cons, hval]
      have hlen2 : (natToBytesBE n (mpiByteLen n) ++ tail).length =
          mpiByteLen n + tail.length := by
        rw [List.length_append, natToBytesBE_length]
      have hcnt : (numBits n + 7) / 8 = mpiByteLen n := rfl
      rw [hcnt, if_pos (by omega)]
      have htake : (natToBytesBE n (mpiByteLen n) ++ tail).take (mpiByteLen n) =
          natToBytesBE n (mpiByteLen n) := by
        have := List.take_left (natToBytesBE n (mpiByteLen n)) tail
        rwa [natToBytesBE_length] at this
      rw [htake, beBytesToNat_natToBytesBE _ _ (lt_256_pow_mpiByteLen n)]
    · rw [List.length_append, natToBytesBE_length, natToBytesBE_length]
      rfl
  · rw [if_neg hle] at h
    injection h

/-- Helper: contents on a DSA packet whose raw bytes are the canonical
encodings of r and s back-to-back recovers exactly (r, s): the second
integer is located at the encoded byte length of r, whatever that is. -/
theorem contents_dsa_of_canonical {p : SignaturePacket} {r s : Nat} {rb sb : List Nat}
    (halgo : p.pubkey_algo = .dsa)
    (hr : mpi_to_bytes r = some rb) (hs : mpi_to_bytes s = some sb)
    (hc : p.signature_contents = rb ++ sb) :
    p.contents = .ok (.dsa r s) := by
  obtain ⟨hpr, hlenr⟩ := mpi_from_bytes_of_encode hr sb
  obtain ⟨hps, -⟩ := mpi_from_bytes_of_encode hs []
  rw [List.append_nil] at hps
  simp only [SignaturePacket.contents, halgo, hc, hpr, ← hlenr, List.drop_left, hps]

/-- Helper: contents on an RSA-family packet whose raw bytes are the
canonical encoding of r recovers r. -/
theorem contents_rsa_of_canonical {p : SignaturePacket} {r : Nat} {rb : List Nat}
    (halgo : p.pubkey_algo = .rsa ∨ p.pubkey_algo = .rsaEncryptOnly
      ∨ p.pubkey_algo = .rsaSignOnly)
    (hr : mpi_to_bytes r = some rb)
    (hc : p.signature_contents = rb) :
    p.contents = .ok (.rsa r) := by
  obtain ⟨hpr, -⟩ := mpi_from_bytes_of_encode hr []
  rw [List.append_nil] at hpr
  rcases halgo with h | h | h <;>
    simp only [SignaturePacket.contents, h, hc, hpr]

/-- Helper: set_contents writes the canonical encodings. -/
theorem set_contents_spec {p : SignaturePacket} {r s : Nat} {rb sb : List Nat}
    (hr : mpi_to_bytes r = some rb) (hs : mpi_to_bytes s = some sb) :
    p.set_contents (.rsa r) = .ok { p with signature_contents := rb }
    ∧ p.set_contents (.dsa r s) = .ok { p with signature_contents := rb ++ sb }
    ∧ ∀ payload, p.set_contents (.unknown payload) =
        .ok { p with signature_contents := payload } := by
  refine ⟨?_, ?_, fun payload => rfl⟩
  · simp only [SignaturePacket.set_contents, hr]
  · simp only [SignaturePacket.set_contents, hr, hs]

/-- C8: the signature-value codec is a structural inverse: on a DSA
packet contents parses r at offset 0 and s exactly at the encoded byte
length of r as reported by the big-integer codec (for every length of
r); set_contents writes Rsa as one framed integer, Dsa as the frames of
r then s, Unknown verbatim; and decoding after set_contents yields
byte-identical contents and the same value for RSA and DSA, while every
other algorithm keeps the bytes opaque. -/
theorem c8_signature_value_codec :
    ∀ (p : SignaturePacket) (r s : Nat) (rb sb : List Nat),
    mpi_to_bytes r = some rb → mpi_to_bytes s = some sb →
    ((p.pubkey_algo = .dsa → p.signature_contents = rb ++ sb →
       mpi_len_encoded r = rb.length ∧ p.contents = .ok (.dsa r s))
     ∧ ((p.pubkey_algo = .rsa ∨ p.pubkey_algo = .rsaEncryptOnly
          ∨ p.pubkey_algo = .rsaSignOnly) →
         p.signature_contents = rb → p.contents = .ok (.rsa r))
     ∧ (p.set_contents (.rsa r) = .ok { p with signature_contents := rb }
        ∧ p.set_contents (.dsa r s) = .ok { p with signature_contents := rb ++ sb }
        ∧ ∀ payload, p.set_contents (.unknown payload) =
            .ok { p with signature_contents := payload })
     ∧ (p.pubkey_algo = .dsa → ∀ p2, p.set_contents (.dsa r s) = .ok p2 →
         p2.signature_contents = rb ++ sb ∧ p2.contents = .ok (.dsa r s))
     ∧ ((p.pubkey_algo = .rsa ∨ p.pubkey_algo = .rsaEncryptOnly
          ∨ p.pubkey_algo = .rsaSignOnly) →
         ∀ p2, p.set_contents (.rsa r) = .ok p2 →
         p2.signature_contents = rb ∧ p2.contents = .ok (.rsa r))
     ∧ (p.pubkey_algo ≠ .rsa → p.pubkey_algo ≠ .rsaEncryptOnly →
        p.pubkey_algo ≠ .rsaSignOnly → p.pubkey_algo ≠ .dsa →
        p.contents = .ok (.unknown p.signature_contents))) := by
  intro p r s rb sb hr hs
  obtain ⟨hsetr, hsetd, hsetu⟩ := set_contents_spec (p := p) hr hs
  refine ⟨?_, ?_, ⟨hsetr, hsetd, hsetu⟩, ?_, ?_, ?_⟩
  · intro halgo hc
    exact ⟨(mpi_from_bytes_of_encode hr sb).2.symm,
      contents_dsa_of_canonical halgo hr hs hc⟩
  · intro halgo hc
    exact contents_rsa_of_canonical halgo hr hc
  · intro halgo p2 hset
    rw [hsetd] at hset
    injection hset with hset
    subst hset
    exact ⟨rfl, contents_dsa_of_canonical halgo hr hs rfl⟩
  · intro halgo p2 hset
    rw [hsetr] at hset
    injection hset with hset
    subst hset
    exact ⟨rfl, contents_rsa_of_canonical halgo hr rfl⟩
  · intro h1 h2 h3 h4
    cases ha : p.pubkey_algo <;>
      first
        | exact absurd ha (by assumption)
        | simp only [SignaturePacket.contents, ha]

/-- C8 witness: on a DSA packet carrying the canonical encodings of
r = 5 and s = 7, contents recovers the pair, and the encode-decode
round trip through set_contents is byte-identical. -/
theorem c8_witness :
    mpi_to_bytes 5 = some [0, 3, 5]
    ∧ mpi_to_bytes 7 = some [0, 3, 7]
    ∧ (({ sig_type := .binaryDocument
          timestamp := none
          signer := none
          pubkey_algo := .dsa
          hash_algo := .sha1
          hashed_subpackets := []
          unhashed_subpackets := []
          signature_contents := [0, 3, 5, 0, 3, 7] } : SignaturePacket).pubkey_algo = .dsa →
        ({ sig_type := .binaryDocument
           timestamp := none
           signer := none
           pubkey_algo := .dsa
           hash_algo := .sha1
           hashed_subpackets := []
           unhashed_subpackets := []
           signature_contents := [0, 3, 5, 0, 3, 7] } : SignaturePacket).signature_contents =
          [0, 3, 5] ++ [0, 3, 7] →
        mpi_len_encoded 5 = ([0, 3, 5] : List Nat).length
        ∧ ({ sig_type := .binaryDocument
             timestamp := none
             signer := none
             pubkey_algo := .dsa
             hash_algo := .sha1
             hashed_subpackets := []
             unhashed_subpackets := []
             signature_contents := [0, 3, 5, 0, 3, 7] } : SignaturePacket).contents =
          .ok (.dsa 5 7)) :=
  ⟨rfl, rfl,
    (c8_signature_value_codec
      { sig_type := .binaryDocument
        timestamp := none
        signer := none
        pubkey_algo := .dsa
        hash_algo := .sha1
        hashed_subpackets := []
        unhashed_subpackets := []
        signature_contents := [0, 3, 5, 0, 3, 7] }
      5 7 [0, 3, 5] [0, 3, 7] rfl rfl).1⟩

end PrettyGood
